import Mathlib

/-!
Verification of the website-scraper service (`src/app.py`).

The development shallowly embeds the pure core of `app.py`:
text normalization (`clean_text`), language detection
(`extract_code_language`), and the HTML extraction pass of
`scrape_website`, together with the error-handling wrapper around the
fetch.  HTML documents are modelled as trees of elements and text; an
element is identified by its position (path) in the tree, mirroring
BeautifulSoup's distinct node objects (`id(element)`), and
`soup.find_all` / `soup.select` document order is preorder traversal.
-/

/-! ### Character-list string primitives (Python `str` semantics) -/

/-- Prefix test recursing on the pattern (Python `str.startswith`). -/
def chPref : List Char → List Char → Bool
  | [], _ => true
  | p :: ps, s =>
    match s with
    | [] => false
    | c :: cs => p == c && chPref ps cs

/-- Python `s.startswith(p)`. -/
def strStartsWith (s p : String) : Bool := chPref p.data s.data

/-- Substring occurrence helper: does `pat` occur in the list? -/
def subOccurs (pat : List Char) : List Char → Bool
  | [] => pat.isEmpty
  | c :: cs => chPref pat (c :: cs) || subOccurs pat cs

/-- Python `pat in s` (substring containment). -/
def strContainsSub (s pat : String) : Bool := subOccurs pat.data s.data

/-- Python `str.strip()`: drop leading and trailing whitespace. -/
def pyStrip (s : String) : String :=
  ⟨((s.data.dropWhile Char.isWhitespace).reverse.dropWhile Char.isWhitespace).reverse⟩

/-- Replace every maximal whitespace run by a single space
(semantics of `re.sub(r'\s+', ' ', ·)`). -/
def collapseWsAux : List Char → Bool → List Char
  | [], _ => []
  | c :: cs, prevWs =>
    if c.isWhitespace then
      (if prevWs then [] else [' ']) ++ collapseWsAux cs true
    else c :: collapseWsAux cs false

/-- `clean_text` from `src/app.py` (lines 30–35): empty text maps to `""`,
otherwise strip, then collapse internal whitespace runs to single spaces. -/
def clean_text (text : String) : String :=
  if text = "" then "" else ⟨collapseWsAux (pyStrip text).data false⟩

/-! ### HTML document model -/

/-- A parsed HTML node: raw text, or an element with a tag name, a class
list (BeautifulSoup's multi-valued `class` attribute), remaining
attributes, and children. -/
inductive Node where
  | text (s : String)
  | elem (name : String) (classes : List String)
      (attrs : List (String × String)) (children : List Node)

mutual
/-- `get_text()` of a node: concatenation of all descendant text. -/
def nodeText : Node → String
  | .text s => s
  | .elem _ _ _ cs => nodesText cs

/-- `get_text()` over a child list. -/
def nodesText : List Node → String
  | [] => ""
  | c :: cs => nodeText c ++ nodesText cs
end

mutual
/-- Class list of the first `code` element in a subtree, preorder
(`element.find('code')` applied below a node). -/
def nodeFindCode : Node → Option (List String)
  | .text _ => none
  | .elem n cls _ cs => if n = "code" then some cls else nodesFindCode cs

/-- `find('code')` over a child list, preorder. -/
def nodesFindCode : List Node → Option (List String)
  | [] => none
  | c :: cs =>
    match nodeFindCode c with
    | some r => some r
    | none => nodesFindCode cs
end

/-- One element of the parsed document, as seen by the extraction pass:
its identity (`eid`, the path of child indices from the root, standing
for Python's `id(element)`), tag name, class list, other attributes,
`get_text()` value, ancestor tag names, and the class list of its first
descendant `code` element if any (`element.find('code')`). -/
structure FlatElem where
  eid : List Nat
  name : String
  classes : List String
  attrs : List (String × String)
  text : String
  ancestorNames : List String
  codeDescClasses : Option (List String)
deriving DecidableEq

mutual
/-- Preorder flattening of a node into the element list. -/
def flattenNode (anc : List String) (path : List Nat) : Node → List FlatElem
  | .text _ => []
  | .elem n cls attrs cs =>
    { eid := path, name := n, classes := cls, attrs := attrs,
      text := nodesText cs, ancestorNames := anc,
      codeDescClasses := nodesFindCode cs } :: flattenNodes (n :: anc) path 0 cs

/-- Preorder flattening of a child list (`i` is the next child index). -/
def flattenNodes (anc : List String) (path : List Nat) (i : Nat) : List Node → List FlatElem
  | [] => []
  | c :: cs => flattenNode anc (path ++ [i]) c ++ flattenNodes anc path (i + 1) cs
end

/-- All elements of a document in document (preorder) order, the order in
which `find_all` and `select` yield matches. -/
def allElems (doc : List Node) : List FlatElem := flattenNodes [] [] 0 doc

/-! ### Language detection (`extract_code_language`, lines 37–46) -/

/-- The prefix patterns of line 42. -/
def languagePrefixes : List String := ["language-", "lang-", "highlight-"]

/-- The fixed known-language list of line 44. -/
def knownLanguages : List String :=
  ["python", "javascript", "html", "css", "java", "cpp", "c", "sql", "json", "xml"]

/-- Python `cls.split('-', 1)[1]`: everything after the first hyphen. -/
def splitRemainder (cls : String) : String :=
  ⟨(cls.data.dropWhile (fun c => c != '-')).drop 1⟩

/-- The decision taken for one class value inside the loop of
`extract_code_language` (lines 40–45). -/
def classLanguage (cls : String) : Option String :=
  if languagePrefixes.any (fun p => strStartsWith cls p) then some (splitRemainder cls)
  else if knownLanguages.contains cls then some cls
  else none

/-- `extract_code_language` from `src/app.py`: first class in list order
that matches a prefix pattern or the known-language set wins. -/
def extract_code_language (classes : List String) : Option String :=
  classes.findSome? classLanguage

/-! ### Code-block extraction (lines 84–127) -/

/-- A `CodeBlock` record (lines 16–19). -/
structure CodeBlock where
  language : Option String
  content : String
  tag : String
deriving DecidableEq

/-- The shapes of selector occurring in `code_selectors` (lines 88–97). -/
inductive Selector where
  | descendant (anc desc : String)
  | tag (t : String)
  | classTok (c : String)
  | classSub (s : String)
deriving DecidableEq

/-- Serialized `class` attribute value (space-joined), the value CSS
`[class*=...]` substring selectors match against. -/
def joinClasses : List String → String
  | [] => ""
  | [c] => c
  | c :: cs => c ++ " " ++ joinClasses cs

/-- CSS selector match against one element. -/
def selMatches : Selector → FlatElem → Bool
  | .descendant a d, e => e.name == d && e.ancestorNames.contains a
  | .tag t, e => e.name == t
  | .classTok c, e => e.classes.contains c
  | .classSub s, e => strContainsSub (joinClasses e.classes) s

/-- `code_selectors` (lines 88–97), in source order. -/
def code_selectors : List Selector :=
  [.descendant "pre" "code", .tag "pre", .tag "code",
   .classTok "highlight", .classTok "code-block", .classTok "codehilite",
   .classSub "language-", .classSub "highlight-"]

/-- Python truthiness test `not language` on an `Optional[str]`. -/
def isFalsy : Option String → Bool
  | none => true
  | some s => s == ""

/-- The `CodeBlock` built for one kept element (lines 114–127), including
the `pre`-to-child language fallback of lines 118–121. -/
def mkCodeBlock (e : FlatElem) : CodeBlock :=
  let language := extract_code_language e.classes
  let language :=
    if e.name == "pre" then
      match e.codeDescClasses with
      | some ccs => if isFalsy language then extract_code_language ccs else language
      | none => language
    else language
  { language := language, content := pyStrip e.text, tag := e.name }

/-- One iteration of the inner loop (lines 103–127).  The state is the
emitted blocks (instrumented with the source element's identity) and the
`processed_elements` set. -/
def processElement (acc : List (CodeBlock × List Nat) × List (List Nat)) (e : FlatElem) :
    List (CodeBlock × List Nat) × List (List Nat) :=
  if acc.2.contains e.eid then acc
  else
    let processed := e.eid :: acc.2
    if pyStrip e.text == "" then (acc.1, processed)
    else (acc.1 ++ [(mkCodeBlock e, e.eid)], processed)

/-- The two nested loops of lines 101–127: each selector in order, each
matching element in document order. -/
def runSelectors (elems : List FlatElem) :
    List (CodeBlock × List Nat) × List (List Nat) :=
  code_selectors.foldl
    (fun acc sel => (elems.filter (fun e => selMatches sel e)).foldl processElement acc)
    ([], [])

/-- Code blocks with the identity of the element each one came from. -/
def extractCodeBlocksI (doc : List Node) : List (CodeBlock × List Nat) :=
  (runSelectors (allElems doc)).1

/-- The `code_blocks` list produced by lines 84–127. -/
def extractCodeBlocks (doc : List Node) : List CodeBlock :=
  (extractCodeBlocksI doc).map Prod.fst

/-! ### The extraction pass and the fetch wrapper (lines 48–142) -/

/-- A `ScrapedContent` record (lines 21–28); `headers` is the insertion
ordered dict as an association list. -/
structure ScrapedContent where
  url : String
  title : Option String
  headers : List (String × List String)
  paragraphs : List String
  code_blocks : List CodeBlock
  meta_description : Option String
  status_code : Nat
deriving DecidableEq

/-- The f-string `f'h{i}'` of line 75. -/
def hTag (i : Nat) : String := "h" ++ toString i

/-- The extraction body of `scrape_website` (lines 62–137), a pure
function of the parsed document. -/
def extract (url : String) (status_code : Nat) (doc : List Node) : ScrapedContent :=
  let elems := allElems doc
  let title_tag := elems.find? (fun e => e.name == "title")
  let title := title_tag.map (fun t => clean_text t.text)
  let meta_desc := elems.find? (fun e =>
    e.name == "meta" && e.attrs.lookup "name" == some "description")
  let meta_description := meta_desc.bind (fun m => m.attrs.lookup "content")
  let headers := (List.range' 1 6).filterMap (fun i =>
    let tag := hTag i
    let header_elements := elems.filter (fun e => e.name == tag)
    if header_elements.isEmpty then none
    else some (tag,
      (header_elements.map (fun h => clean_text h.text)).filter (fun t => !(t == ""))))
  let paragraphs :=
    ((elems.filter (fun e => e.name == "p")).map (fun p => clean_text p.text)).filter
      (fun t => !(t == ""))
  { url := url, title := title, headers := headers, paragraphs := paragraphs,
    code_blocks := extractCodeBlocks doc, meta_description := meta_description,
    status_code := status_code }

/-- Outcome of the `requests.get` call of line 58: a response with a
status and parsed body, or a raised `Timeout` / `ConnectionError` (both
subclasses of `RequestException`) carrying its message. -/
inductive FetchOutcome where
  | response (status : Nat) (body : List Node)
  | timeout (msg : String)
  | connectionError (msg : String)

/-- Result of `scrape_website`: a returned `ScrapedContent`, or a raised
`HTTPException` with a status code and detail message. -/
inductive ScrapeResult where
  | ok (content : ScrapedContent)
  | httpException (status : Nat) (detail : String)
deriving DecidableEq

/-- Modelled from the spec (§4.1, §7) and the `requests` library, which
is outside this repository: `response.raise_for_status()` raises an
`HTTPError` (a `RequestException`) exactly for 4xx/5xx statuses, with a
message naming the status and url. -/
def raiseForStatusMsg (status : Nat) (url : String) : String :=
  if status < 500 then toString status ++ " Client Error for url: " ++ url
  else toString status ++ " Server Error for url: " ++ url

/-- The `str(e)` of the caught `RequestException` (line 140). -/
def FetchOutcome.causeText (url : String) : FetchOutcome → String
  | .timeout m => m
  | .connectionError m => m
  | .response s _ => raiseForStatusMsg s url

/-- A fetch outcome the transport layer treats as failure: timeout,
connection failure, or a 4xx/5xx status (`raise_for_status` raises only
for `400 ≤ status < 600`; other statuses pass through unraised). -/
def FetchOutcome.isFailure : FetchOutcome → Prop
  | .response s _ => 400 ≤ s ∧ s < 600
  | .timeout _ => True
  | .connectionError _ => True

/-- `scrape_website` (lines 48–142) as a function of the fetch outcome:
any `RequestException` (timeout, connection error, or the `HTTPError`
raised by `raise_for_status` on a 4xx/5xx status) becomes an
`HTTPException(400, 'Failed to fetch URL: ' + str(e))`; otherwise the
parsed body is extracted and returned. -/
def scrape_website (url : String) (fetch : FetchOutcome) : ScrapeResult :=
  match fetch with
  | .response status body =>
    if 400 ≤ status ∧ status < 600 then
      ScrapeResult.httpException 400
        ("Failed to fetch URL: " ++ raiseForStatusMsg status url)
    else ScrapeResult.ok (extract url status body)
  | .timeout m => ScrapeResult.httpException 400 ("Failed to fetch URL: " ++ m)
  | .connectionError m => ScrapeResult.httpException 400 ("Failed to fetch URL: " ++ m)

/-! ### Spec-side definitions, for refinement statements -/

/-- Modelled from the spec (§4.2 step 4): every `p` element's normalized
text, in document order, dropping results that normalize to empty. -/
def specParagraphs (doc : List Node) : List String :=
  (allElems doc).filterMap (fun e =>
    if e.name = "p" then
      if clean_text e.text = "" then none else some (clean_text e.text)
    else none)

/-! ### Concrete documents used in the claims below -/

/-- The document `<pre class="language-python"><code>print(1)</code></pre>`. -/
def docPrePython : List Node :=
  [Node.elem "pre" ["language-python"] [] [Node.elem "code" [] [] [Node.text "print(1)"]]]

/-- The document `<pre><code class="javascript">x</code></pre>`. -/
def docPreCodeJs : List Node :=
  [Node.elem "pre" [] [] [Node.elem "code" ["javascript"] [] [Node.text "x"]]]

/-- The document `<h1>   </h1>` (one whitespace-only heading). -/
def docWsHeading : List Node :=
  [Node.elem "h1" [] [] [Node.text "   "]]

/-- Two identical `<pre><code>foo</code></pre>` pairs under different
ancestors. -/
def docTwinPre : List Node :=
  [Node.elem "div" [] [] [Node.elem "pre" [] [] [Node.elem "code" [] [] [Node.text "foo"]]],
   Node.elem "section" [] [] [Node.elem "pre" [] [] [Node.elem "code" [] [] [Node.text "foo"]]]]

/-- A document whose title has internal whitespace runs. -/
def docTitle : List Node :=
  [Node.elem "title" [] [] [Node.text "  Hello   World "]]

/-- A document with a description meta tag whose content has raw
whitespace. -/
def docMeta : List Node :=
  [Node.elem "meta" [] [("name", "description"), ("content", "  A   B ")] []]

/-- A document with no description meta tag. -/
def docNoMeta : List Node :=
  [Node.elem "p" [] [] [Node.text "hi"]]

/-- A document with one real and one whitespace-only paragraph. -/
def docParas : List Node :=
  [Node.elem "p" [] [] [Node.text " a  b "], Node.elem "p" [] [] [Node.text "   "]]

/-! ### C1 -/

/-- C1 fails as stated: on a document that is exactly
`<pre class="language-python"><code>print(1)</code></pre>`, the code
emits a CodeBlock for the `code` child (selector `'pre code'`) and
another for the `pre` element (selector `'pre'`), so `code_blocks` has
two entries, not exactly one. -/
theorem C1_counterexample :
    (extract "https://example.com" 200 docPrePython).code_blocks =
      [⟨none, "print(1)", "code"⟩, ⟨some "python", "print(1)", "pre"⟩]
    ∧ (extract "https://example.com" 200 docPrePython).code_blocks.length ≠ 1 := by
  decide

/-- C1 (amended): for an input HTML document containing exactly one
element `<pre class="language-python"><code>print(1)</code></pre>`, the
`code_blocks` sequence contains exactly two CodeBlocks: the first, from
the `code` child, with absent language and `tag = "code"`; the second,
from the `pre` element, with `language = "python"` and `tag = "pre"`. -/
theorem C1_theorem :
    (extract "https://example.com" 200 docPrePython).code_blocks.length = 2
    ∧ (extract "https://example.com" 200 docPrePython).code_blocks.head? =
        some ⟨none, "print(1)", "code"⟩
    ∧ (extract "https://example.com" 200 docPrePython).code_blocks.getLast? =
        some ⟨some "python", "print(1)", "pre"⟩ := by
  decide

/-! ### C4 -/

/-- C4: for `<pre><code class="javascript">x</code></pre>` with no class
on the `pre`, extraction yields a CodeBlock with
`language = "javascript"` and `tag = "pre"`, obtained by falling back
from the `pre` element's (empty, hence language-less) class list to the
`code` child's class list. -/
theorem C4_theorem :
    extract_code_language ([] : List String) = none
    ∧ extract_code_language ["javascript"] = some "javascript"
    ∧ (CodeBlock.mk (some "javascript") "x" "pre") ∈
        (extract "https://example.com" 200 docPreCodeJs).code_blocks := by
  decide

/-! ### C2 -/

/-- C2 fails as stated: a document whose only heading is the
whitespace-only `<h1>   </h1>` produces a `headers` mapping that binds
the key `"h1"` to the empty sequence, because line 77 tests for the
existence of heading elements before empty texts are filtered out. -/
theorem C2_counterexample :
    (extract "https://example.com" 200 docWsHeading).headers = [("h1", [])]
    ∧ ("h1", ([] : List String)) ∈ (extract "https://example.com" 200 docWsHeading).headers := by
  decide

/-! ### Generic helper lemmas -/

/-- `find?` returns the head of the filtered list. -/
theorem find?_eq_head?_filter {α : Type} (p : α → Bool) (l : List α) :
    l.find? p = (l.filter p).head? := by
  induction l with
  | nil => rfl
  | cons a l ih =>
    by_cases h : p a = true
    · rw [List.find?_cons_of_pos _ h, List.filter_cons_of_pos h, List.head?_cons]
    · rw [List.find?_cons_of_neg _ h, List.filter_cons_of_neg h, ih]

/-! ### C6 -/

/-- C6: the result's `title` is the normalization of the first `title`
element's text (possibly the empty string), and is absent exactly when
the document contains no `title` element. -/
theorem C6_theorem (url : String) (status : Nat) (doc : List Node) :
    (extract url status doc).title =
      (((allElems doc).filter (fun e => e.name == "title")).head?).map
        (fun e => clean_text e.text)
    ∧ ((extract url status doc).title = none ↔
        ∀ e ∈ allElems doc, e.name ≠ "title") := by
  have h1 : (extract url status doc).title =
      ((allElems doc).find? (fun e => e.name == "title")).map
        (fun t => clean_text t.text) := rfl
  constructor
  · rw [h1, find?_eq_head?_filter]
  · rw [h1]
    simp only [Option.map_eq_none', List.find?_eq_none, beq_iff_eq]

/-- C6 witness: on `docTitle` the title formula holds and evaluates to the
normalized text `"Hello World"`. -/
theorem C6_witness :
    (extract "https://example.com" 200 docTitle).title =
      (((allElems docTitle).filter (fun e => e.name == "title")).head?).map
        (fun e => clean_text e.text)
    ∧ (extract "https://example.com" 200 docTitle).title = some "Hello World" :=
  ⟨ ( C6_theorem "https://example.com" 200 docTitle).1, by decide⟩

/-! ### C7 -/

/-- C7: `meta_description` is the verbatim `content` attribute of the
first `meta` element whose `name` attribute is `"description"`, and is
absent when no such element exists (or, through the `bind`, when the
element has no `content` attribute); a concrete document shows the value
is taken verbatim, not normalized. -/
theorem C7_theorem (url : String) (status : Nat) (doc : List Node) :
    (extract url status doc).meta_description =
      (((allElems doc).filter (fun e =>
          e.name == "meta" && e.attrs.lookup "name" == some "description")).head?).bind
        (fun m => m.attrs.lookup "content")
    ∧ ((∀ e ∈ allElems doc,
          ¬(e.name = "meta" ∧ e.attrs.lookup "name" = some "description")) →
        (extract url status doc).meta_description = none)
    ∧ (extract "https://example.com" 200 docMeta).meta_description = some "  A   B " := by
  have h1 : (extract url status doc).meta_description =
      ((allElems doc).find? (fun e =>
        e.name == "meta" && e.attrs.lookup "name" == some "description")).bind
        (fun m => m.attrs.lookup "content") := rfl
  refine ⟨?_, ?_, by decide⟩
  · rw [h1, find?_eq_head?_filter]
  · intro h
    rw [h1]
    have hn : (allElems doc).find? (fun e =>
        e.name == "meta" && e.attrs.lookup "name" == some "description") = none := by
      rw [List.find?_eq_none]
      intro e he
      simp only [Bool.and_eq_true, beq_iff_eq]
      exact fun hx => h e he ⟨hx.1, hx.2⟩
    rw [hn]
    rfl

/-- C7 witness: a document with no description meta tag yields an absent
`meta_description`. -/
theorem C7_witness :
    (extract "https://example.com" 200 docNoMeta).meta_description = none :=
  ( C7_theorem "https://example.com" 200 docNoMeta).2.1 (by decide)

/-! ### C8 -/

/-- The comprehension of line 82 agrees with the spec-side `filterMap`
formulation. -/
theorem paragraphs_filterMap (l : List FlatElem) :
    ((l.filter (fun e => e.name == "p")).map (fun p => clean_text p.text)).filter
      (fun t => !(t == "")) =
    l.filterMap (fun e =>
      if e.name = "p" then
        if clean_text e.text = "" then none else some (clean_text e.text)
      else none) := by
  induction l with
  | nil => rfl
  | cons e l ih =>
    by_cases hp : e.name = "p"
    · by_cases he : clean_text e.text = ""
      · simp [List.filter_cons, List.filterMap_cons, hp, he, ih]
      · simp [List.filter_cons, List.filterMap_cons, hp, he, ih]
    · simp [List.filter_cons, List.filterMap_cons, hp, ih]

/-- C8: the result's `paragraphs` sequence is exactly the normalized
texts of the `p` elements in document order with empty normalizations
dropped, and every entry is non-empty. -/
theorem C8_theorem (url : String) (status : Nat) (doc : List Node) :
    (extract url status doc).paragraphs = specParagraphs doc
    ∧ ∀ t ∈ (extract url status doc).paragraphs, t ≠ "" := by
  have h1 : (extract url status doc).paragraphs =
      (((allElems doc).filter (fun e => e.name == "p")).map
        (fun p => clean_text p.text)).filter (fun t => !(t == "")) := rfl
  constructor
  · rw [h1, paragraphs_filterMap]
    rfl
  · intro t ht
    rw [h1] at ht
    have h2 := (List.mem_filter.mp ht).2
    simpa using h2

/-- C8 witness: on `docParas` the paragraphs equal the spec-side value,
namely `["a b"]` (the whitespace-only paragraph is dropped). -/
theorem C8_witness :
    (extract "https://example.com" 200 docParas).paragraphs = specParagraphs docParas
    ∧ specParagraphs docParas = ["a b"] :=
  ⟨ ( C8_theorem "https://example.com" 200 docParas).1, by decide⟩

/-! ### C5 -/

/-- C5: language recognition over a class list: a class of the form
`p ++ rest` for a recognized prefix `p` (each prefix ending in the
class's first hyphen) yields `rest`, the remainder after the first
hyphen; otherwise a class exactly in the known-language set yields
itself; otherwise the class yields nothing; over the list, the first
matching class wins, and the result is absent exactly when no class
matches. -/
theorem C5_theorem :
    (∀ p ∈ languagePrefixes, ∀ rest : String, classLanguage (p ++ rest) = some rest)
    ∧ (∀ cls : String, (∀ p ∈ languagePrefixes, strStartsWith cls p = false) →
        cls ∈ knownLanguages → classLanguage cls = some cls)
    ∧ (∀ cls : String, (∀ p ∈ languagePrefixes, strStartsWith cls p = false) →
        cls ∉ knownLanguages → classLanguage cls = none)
    ∧ (∀ (l1 l2 : List String) (cls lang : String),
        (∀ c ∈ l1, classLanguage c = none) → classLanguage cls = some lang →
        extract_code_language (l1 ++ cls :: l2) = some lang)
    ∧ (∀ classes : List String,
        extract_code_language classes = none ↔ ∀ c ∈ classes, classLanguage c = none) := by
  have hany : ∀ cls : String, (∀ p ∈ languagePrefixes, strStartsWith cls p = false) →
      (languagePrefixes.any fun p => strStartsWith cls p) = false := by
    intro cls h
    rw [List.any_eq_false]
    intro p hp
    simp [h p hp]
  refine ⟨?_, ?_, ?_, ?_, ?_⟩
  · intro p hp rest
    simp only [languagePrefixes, List.mem_cons, List.not_mem_nil, or_false] at hp
    rcases hp with rfl | rfl | rfl <;> rfl
  · intro cls h hk
    have hc : knownLanguages.contains cls = true := List.elem_eq_true_of_mem hk
    unfold classLanguage
    rw [hany cls h, hc]
    rfl
  · intro cls h hk
    have hc : knownLanguages.contains cls = false := by
      cases hc : knownLanguages.contains cls
      · rfl
      · exact absurd (List.mem_of_elem_eq_true hc) hk
    unfold classLanguage
    rw [hany cls h, hc]
    rfl
  · intro l1 l2 cls lang h1 h2
    induction l1 with
    | nil => simp [extract_code_language, List.findSome?_cons, h2]
    | cons c cs ih =>
      have hc : classLanguage c = none := h1 c (List.mem_cons_self c cs)
      have ih2 := ih (fun c' hc' => h1 c' (List.mem_cons_of_mem c hc'))
      rw [extract_code_language] at ih2 ⊢
      rw [List.cons_append, List.findSome?_cons, hc]
      exact ih2
  · intro classes
    induction classes with
    | nil => simp [extract_code_language, List.findSome?]
    | cons c cs ih =>
      rw [extract_code_language] at ih ⊢
      rw [List.findSome?_cons]
      cases hc : classLanguage c with
      | some v => simp [hc]
      | none => simp [hc, ih]

/-- C5 witness: the first matching class in list order decides the
language, here the prefixed class `"language-python"` after a
non-matching class. -/
theorem C5_witness :
    extract_code_language (["foo"] ++ "language-python" :: []) = some "python" :=
  C5_theorem.2.2.2.1 ["foo"] [] "language-python" "python" (by decide) (by decide)

/-! ### String containment helpers for C9 -/

/-- Reflexivity of the character-list prefix test. -/
theorem chPref_self (l : List Char) : chPref l l = true := by
  induction l with
  | nil => rfl
  | cons c cs ih => simp [chPref, ih]

/-- A list occurs as a substring at the end of any extension. -/
theorem subOccurs_append (pat : List Char) (pre : List Char) :
    subOccurs pat (pre ++ pat) = true := by
  induction pre with
  | nil =>
    cases pat with
    | nil => rfl
    | cons c cs => simp [subOccurs, chPref_self]
  | cons c pre ih => simp [subOccurs, ih]

/-- Appending on the left preserves the underlying character list. -/
theorem str_data_append (a b : String) : (a ++ b).data = a.data ++ b.data := rfl

/-- A string contains any string it ends with. -/
theorem strContainsSub_append (a b : String) : strContainsSub (a ++ b) b = true := by
  unfold strContainsSub
  rw [str_data_append]
  exact subOccurs_append b.data a.data

/-! ### C9 -/

/-- C9: whenever the fetch fails (timeout, connection failure, or a
4xx/5xx status turned into an exception by `raise_for_status`), the
scrape raises a 400 `HTTPException` whose detail embeds the underlying
cause text, never a 500, and no `ScrapedContent` is returned. -/
theorem C9_theorem (url : String) (f : FetchOutcome) (h : f.isFailure) :
    scrape_website url f =
      ScrapeResult.httpException 400 ("Failed to fetch URL: " ++ f.causeText url)
    ∧ (∀ c, scrape_website url f ≠ ScrapeResult.ok c)
    ∧ (∀ s d, scrape_website url f = ScrapeResult.httpException s d →
        s = 400 ∧ strContainsSub d (f.causeText url) = true) := by
  have heq : scrape_website url f =
      ScrapeResult.httpException 400 ("Failed to fetch URL: " ++ f.causeText url) := by
    cases f with
    | response s body =>
      have hs : 400 ≤ s ∧ s < 600 := h
      simp [scrape_website, FetchOutcome.causeText, hs]
    | timeout m => rfl
    | connectionError m => rfl
  refine ⟨heq, ?_, ?_⟩
  · intro c hc
    rw [heq] at hc
    exact ScrapeResult.noConfusion hc
  · intro s d hd
    rw [heq] at hd
    injection hd with h1 h2
    refine ⟨h1.symm, ?_⟩
    rw [← h2]
    exact strContainsSub_append _ _

/-- C9 witness: a timeout produces the 400 failure with the timeout
message embedded in the detail. -/
theorem C9_witness :
    scrape_website "https://example.com" (FetchOutcome.timeout "Read timed out.") =
      ScrapeResult.httpException 400 ("Failed to fetch URL: " ++ "Read timed out.")
    ∧ strContainsSub ("Failed to fetch URL: " ++ "Read timed out.") "Read timed out." = true :=
  ⟨ ( C9_theorem "https://example.com" (FetchOutcome.timeout "Read timed out.") trivial).1,
   by decide⟩

/-! ### C10 -/

/-- C10 fails as stated: `raise_for_status` raises only for statuses in
`[400, 600)`, so a response with status 999 (a status real servers send
and the transport surfaces unraised) is extracted and returned as a
`ScrapedContent` whose `status_code` is 999, not strictly below 400. -/
theorem C10_counterexample :
    scrape_website "https://example.com" (FetchOutcome.response 999 []) =
      ScrapeResult.ok (extract "https://example.com" 999 [])
    ∧ ¬((extract "https://example.com" 999 ([] : List Node)).status_code < 400) := by
  constructor
  · rfl
  · decide

/-- C10 (amended): every `ScrapedContent` returned by a successful
scrape has a `status_code` outside `[400, 600)` — below 400 or at least
600 — because exactly the 4xx/5xx responses raise before extraction. -/
theorem C10_theorem (url : String) (f : FetchOutcome) (c : ScrapedContent)
    (h : scrape_website url f = ScrapeResult.ok c) :
    c.status_code < 400 ∨ 600 ≤ c.status_code := by
  cases f with
  | response s body =>
    by_cases hs : 400 ≤ s ∧ s < 600
    · rw [scrape_website] at h
      simp [hs] at h
    · rw [scrape_website] at h
      simp [hs] at h
      have hc : (extract url s body).status_code = s := rfl
      rw [← h, hc]
      omega
  | timeout m => exact absurd h (by simp [scrape_website])
  | connectionError m => exact absurd h (by simp [scrape_website])

/-- C10 witness: a 200 response yields a returned content whose status
code avoids the raising range. -/
theorem C10_witness :
    (extract "https://example.com" 200 ([] : List Node)).status_code < 400
    ∨ 600 ≤ (extract "https://example.com" 200 ([] : List Node)).status_code :=
  C10_theorem "https://example.com" (FetchOutcome.response 200 [])
    (extract "https://example.com" 200 []) rfl

/-! ### C3 -/

/-- Invariant of the code-block loop state: the emitted blocks come from
pairwise distinct elements, and every emitting element is recorded in
`processed_elements`. -/
def CBInv (acc : List (CodeBlock × List Nat) × List (List Nat)) : Prop :=
  (acc.1.map Prod.snd).Nodup ∧ ∀ p ∈ acc.1, p.2 ∈ acc.2

/-- One loop iteration preserves the invariant. -/
theorem processElement_inv (acc : List (CodeBlock × List Nat) × List (List Nat))
    (e : FlatElem) (h : CBInv acc) : CBInv (processElement acc e) := by
  obtain ⟨hnd, hmem⟩ := h
  unfold processElement
  by_cases hc : acc.2.contains e.eid = true
  · rw [if_pos hc]
    exact ⟨hnd, hmem⟩
  · have hnotmem : e.eid ∉ acc.2 := fun hm => hc (List.elem_eq_true_of_mem hm)
    rw [if_neg hc]
    by_cases ht : (pyStrip e.text == "") = true
    · rw [if_pos ht]
      exact ⟨hnd, fun p hp => List.mem_cons_of_mem _ (hmem p hp)⟩
    · rw [if_neg ht]
      constructor
      · rw [List.map_append, List.nodup_append]
        refine ⟨hnd, List.nodup_singleton _, ?_⟩
        intro a ha hb
        simp only [List.map_cons, List.map_nil, List.mem_singleton] at hb
        subst hb
        obtain ⟨p, hp, hpe⟩ := List.mem_map.mp ha
        exact hnotmem (hpe ▸ hmem p hp)
      · intro p hp
        rcases List.mem_append.mp hp with hp1 | hp2
        · exact List.mem_cons_of_mem _ (hmem p hp1)
        · simp only [List.mem_singleton] at hp2
          subst hp2
          exact List.mem_cons_self _ _

/-- Folding the loop body over any element list preserves the invariant. -/
theorem foldl_processElement_inv (es : List FlatElem) :
    ∀ acc, CBInv acc → CBInv (es.foldl processElement acc) := by
  induction es with
  | nil => exact fun acc h => h
  | cons e es ih => exact fun acc h => ih _ (processElement_inv acc e h)

/-- The full selector loop establishes the invariant. -/
theorem runSelectors_inv (elems : List FlatElem) : CBInv (runSelectors elems) := by
  unfold runSelectors
  have hgen : ∀ (sels : List Selector) acc, CBInv acc →
      CBInv (sels.foldl
        (fun acc sel => (elems.filter (fun e => selMatches sel e)).foldl processElement acc)
        acc) := by
    intro sels
    induction sels with
    | nil => exact fun acc h => h
    | cons s ss ih =>
      exact fun acc h => ih _ (foldl_processElement_inv _ acc h)
  refine hgen code_selectors ([], []) ⟨List.nodup_nil, ?_⟩
  intro p hp
  exact absurd hp (List.not_mem_nil p)

/-- C3: code-block de-duplication is by element identity: for every
document the emitted blocks come from pairwise distinct source elements;
and on a document with two identical `pre`/`code` pairs under different
ancestors, each of the four distinct elements (the two `code` children
via selector `'pre code'`, then the two `pre` elements via `'pre'`)
yields exactly one CodeBlock, identical texts notwithstanding, and the
`code` elements are not repeated by the later bare `'code'` selector. -/
theorem C3_theorem :
    (∀ doc : List Node, ((extractCodeBlocksI doc).map Prod.snd).Nodup)
    ∧ extractCodeBlocksI docTwinPre =
        [(⟨none, "foo", "code"⟩, [0, 0, 0]), (⟨none, "foo", "code"⟩, [1, 0, 0]),
         (⟨none, "foo", "pre"⟩, [0, 0]), (⟨none, "foo", "pre"⟩, [1, 0])] := by
  constructor
  · intro doc
    exact (runSelectors_inv (allElems doc)).1
  · decide

/-- C3 witness: the distinctness invariant evaluated on the twin
document. -/
theorem C3_witness :
    ((extractCodeBlocksI docTwinPre).map Prod.snd).Nodup :=
  C3_theorem.1 docTwinPre

/-- Emptiness of a list and its `isEmpty` flag. -/
theorem isEmpty_iff_nil (l : List FlatElem) : l.isEmpty = true ↔ l = [] := by
  cases l <;> simp [List.isEmpty]

/-- C2 (amended): a heading level `h1`–`h6` appears as a key in `headers`
exactly when at least one element of that tag exists in the document —
even when every such heading normalizes to empty — and the bound value is
the sequence of non-empty normalized heading texts of that level in
document order, possibly the empty sequence. -/
theorem C2_theorem (url : String) (status : Nat) (doc : List Node) (i : Nat)
    (hi : i ∈ List.range' 1 6) :
    ((∃ ts, (hTag i, ts) ∈ (extract url status doc).headers) ↔
      ∃ e ∈ allElems doc, e.name = hTag i)
    ∧ (∀ ts, (hTag i, ts) ∈ (extract url status doc).headers →
        ts = (((allElems doc).filter (fun e => e.name == hTag i)).map
                (fun h => clean_text h.text)).filter (fun t => !(t == ""))
        ∧ ∀ t ∈ ts, t ≠ "") := by
  have hh : (extract url status doc).headers =
      (List.range' 1 6).filterMap (fun j =>
        if ((allElems doc).filter (fun e => e.name == hTag j)).isEmpty then none
        else some (hTag j,
          (((allElems doc).filter (fun e => e.name == hTag j)).map
            (fun h => clean_text h.text)).filter (fun t => !(t == "")))) := rfl
  have hinj : ∀ a ∈ List.range' 1 6, ∀ b ∈ List.range' 1 6, hTag a = hTag b → a = b := by
    decide
  have key : ∀ ts, (hTag i, ts) ∈ (extract url status doc).headers ↔
      (¬((allElems doc).filter (fun e => e.name == hTag i)).isEmpty = true
        ∧ ts = (((allElems doc).filter (fun e => e.name == hTag i)).map
            (fun h => clean_text h.text)).filter (fun t => !(t == ""))) := by
    intro ts
    rw [hh, List.mem_filterMap]
    constructor
    · rintro ⟨j, hj, hGj⟩
      by_cases hje : ((allElems doc).filter (fun e => e.name == hTag j)).isEmpty = true
      · rw [if_pos hje] at hGj
        exact absurd hGj (by simp)
      · rw [if_neg hje] at hGj
        have hpair := Option.some.inj hGj
        have hfst : hTag j = hTag i := congrArg Prod.fst hpair
        have hji : j = i := hinj j hj i hi hfst
        subst hji
        exact ⟨hje, (congrArg Prod.snd hpair).symm⟩
    · rintro ⟨hne, hts⟩
      refine ⟨i, hi, ?_⟩
      rw [if_neg hne, hts]
  constructor
  · constructor
    · rintro ⟨ts, hts⟩
      have hne := ((key ts).mp hts).1
      have hfil : ((allElems doc).filter (fun e => e.name == hTag i)) ≠ [] := by
        intro h0
        exact hne ((isEmpty_iff_nil _).mpr h0)
      obtain ⟨e, he⟩ := List.exists_mem_of_ne_nil _ hfil
      have hef := List.mem_filter.mp he
      exact ⟨e, hef.1, by simpa using hef.2⟩
    · rintro ⟨e, he, hname⟩
      have hef : e ∈ (allElems doc).filter (fun e => e.name == hTag i) :=
        List.mem_filter.mpr ⟨he, by simp [hname]⟩
      have hne : ¬((allElems doc).filter (fun e => e.name == hTag i)).isEmpty = true := by
        intro h0
        rw [(isEmpty_iff_nil _).mp h0] at hef
        exact absurd hef (List.not_mem_nil e)
      exact ⟨_, (key _).mpr ⟨hne, rfl⟩⟩
  · intro ts hts
    have hts2 := ((key ts).mp hts).2
    refine ⟨hts2, ?_⟩
    intro t ht
    rw [hts2] at ht
    have h2 := (List.mem_filter.mp ht).2
    simpa using h2

/-- C2 witness: on the whitespace-only-heading document the level `h1`
does get a key (its single heading element exists), obtained from the
amended characterization. -/
theorem C2_witness :
    ∃ ts, (hTag 1, ts) ∈ (extract "https://example.com" 200 docWsHeading).headers :=
  ( C2_theorem "https://example.com" 200 docWsHeading 1 (by decide)).1.mpr
    ⟨⟨[0], "h1", [], [], "   ", [], none⟩, by decide⟩
